import Mathlib

/-!
Shallow embedding of `src/main.py` (the `LogTree` class and its constructor).
Python floats (timestamps) are modeled as rationals, Python dicts as
association lists whose keys are distinct (a dict can never hold a duplicate
key), and raised exceptions as `Except.error` carrying the exception text.
-/

/-- A `LogTree` is either the empty sentinel (`_message_id is None` in the
source) or a node carrying a message id, a period, a timestamp list and the
two child subtrees. -/
inductive LogTree : Type
  | empty : LogTree
  | node (message_id : Int) (period : Int) (timestamps : List Rat)
      (left : LogTree) (right : LogTree) : LogTree
deriving DecidableEq

/-- Key-ordering on dict items, `a.1` being the key.  the Python `sorted` builtin on
`dict.items()` orders pairs lexicographically; since the keys of a dict are
distinct, that is exactly a stable sort by key. -/
def keyLE {κ α : Type} [LE κ] (a b : κ × α) : Prop := a.1 ≤ b.1

instance {κ α : Type} [LinearOrder κ] : DecidableRel (@keyLE κ α _) :=
  fun a b => inferInstanceAs (Decidable (a.1 ≤ b.1))

instance {κ α : Type} [LinearOrder κ] : IsTotal (κ × α) keyLE :=
  ⟨fun a b => le_total a.1 b.1⟩

instance {κ α : Type} [LinearOrder κ] : IsTrans (κ × α) keyLE :=
  ⟨fun _ _ _ h h2 => le_trans h h2⟩

/-- Model of `sorted(d.items())` for a dict `d` with integer keys. -/
def sortPairs {α : Type} (l : List (Int × α)) : List (Int × α) :=
  l.insertionSort keyLE

/-- Model of `LogTree.__init__` in the case where both dict arguments are given
(lines 44-65 of the source).  `fuel` only bounds the recursion depth so that
the recursion is structural; every call site supplies more fuel than the
depth ever reached, and fuel-irrelevance is proved below.

Faithful to the source: the node id is `sorted(period_dict.items())[n/2][0]`
(an `IndexError` when the dict is empty), period and timestamps are dict
lookups by that id (a `KeyError` when `timestamps_dict` lacks it), and the
children are built from the index slices `[0, n/2)` and `[n/2+1, n)` of the
two sorted item lists. -/
def initCore : Nat → List (Int × Int) → List (Int × List Rat) → Except String LogTree
  | 0, _, _ => .error "out of fuel"
  | fuel + 1, pd, td =>
    let spd := sortPairs pd
    let std := sortPairs td
    let n := pd.length
    match spd[n / 2]? with
    | none => .error "IndexError: list index out of range"
    | some me =>
      match pd.lookup me.1, td.lookup me.1 with
      | some p, some ts =>
        if n = 1 then .ok (.node me.1 p ts .empty .empty)
        else if n = 2 then do
          let l ← initCore fuel (spd.take (n / 2)) (std.take (n / 2))
          pure (.node me.1 p ts l .empty)
        else if 2 < n then do
          let l ← initCore fuel (spd.take (n / 2)) (std.take (n / 2))
          let r ← initCore fuel (spd.drop (n / 2 + 1)) (std.drop (n / 2 + 1))
          pure (.node me.1 p ts l r)
        else .error "unreachable: an empty list has no item at index 0"
      | _, _ => .error "KeyError"

/-- Building a `LogTree` from two (present) dicts; `pd.length + 1` fuel always
suffices because each recursive call strictly shrinks the dict. -/
def buildDict (pd : List (Int × Int)) (td : List (Int × List Rat)) :
    Except String LogTree :=
  initCore (pd.length + 1) pd td

namespace LogTree

/-- Model of `LogTree.__init__`: `none` models passing `None` for an argument.
Both `None` gives the empty sentinel; exactly one `None` raises. -/
def init (pd? : Option (List (Int × Int))) (td? : Option (List (Int × List Rat))) :
    Except String LogTree :=
  match pd?, td? with
  | none, none => .ok .empty
  | none, some _ => .error "Arguments must either both be file names or both be NoneType."
  | some _, none => .error "Arguments must either both be file names or both be NoneType."
  | some pd, some td => buildDict pd td

/-- Model of `self.is_empty()`. -/
def is_empty : LogTree → Bool
  | .empty => true
  | .node .. => false

/-- Model of `self._message_id` (`None` on the empty sentinel). -/
def message_id? : LogTree → Option Int
  | .empty => none
  | .node i _ _ _ _ => some i

/-- Model of `self._period` of the root node (`None` on the empty sentinel). -/
def period_root : LogTree → Option Int
  | .empty => none
  | .node _ p _ _ _ => some p

/-- Model of `self._timestamps` of the root node (`None` on the empty sentinel). -/
def timestamps_root : LogTree → Option (List Rat)
  | .empty => none
  | .node _ _ ts _ _ => some ts

/-- Model of `__contains__` (lines 79-87): standard BST descent. -/
def contains : LogTree → Int → Bool
  | .empty, _ => false
  | .node i _ _ l r, m =>
    if m = i then true
    else if m < i then l.contains m
    else r.contains m

/-- Model of `find` (lines 89-97): `None` unless the tree is non-empty and contains the
id, else descend to the matching subtree. -/
def find : LogTree → Int → Option LogTree
  | .empty, _ => none
  | .node i p ts l r, m =>
    if (LogTree.node i p ts l r).contains m then
      if m = i then some (.node i p ts l r)
      else if m < i then l.find m
      else r.find m
    else none

/-- Model of `all_message_ids` (lines 99-107).  The Python function returns a set built
as `{root} ∪ ids(left) ∪ ids(right)`; it is modeled as the list of those
elements (root first), with set semantics recovered through membership. -/
def all_message_ids : LogTree → List Int
  | .empty => []
  | .node i _ _ l r => i :: (l.all_message_ids ++ r.all_message_ids)

/-- Model of `period(message_id=None)` (lines 109-114). -/
def period (t : LogTree) (m? : Option Int) : Option Int :=
  match m? with
  | none => t.period_root
  | some m =>
    if t.message_id? = some m then t.period_root
    else
      match t.find m with
      | some sub => sub.period_root
      | none => none

/-- Model of `timestamps(message_id=None)` (lines 116-121). -/
def timestamps (t : LogTree) (m? : Option Int) : Option (List Rat) :=
  match m? with
  | none => t.timestamps_root
  | some m =>
    if t.message_id? = some m then t.timestamps_root
    else
      match t.find m with
      | some sub => sub.timestamps_root
      | none => none

/-- Model of `accuracy` (lines 123-134).  The method always ends in
`return out / (len(t) - 1)`: when the id is absent, `t` is `None` and `len(t)`
raises a `TypeError`; when the id has exactly one timestamp the division is by
zero and raises. The local `p` is only inspected when the id is contained,
where `period` is `some`, so the `getD 0` default is never read. -/
def accuracy (tr : LogTree) (m? : Option Int) : Except String Rat :=
  let mid? := match m? with | none => tr.message_id? | some m => some m
  match tr.timestamps mid? with
  | none => .error "TypeError: object of type NoneType has no len()"
  | some t =>
    let p : Int := (tr.period mid?).getD 0
    let inb : Bool := match mid? with | none => false | some m => tr.contains m
    let out : Rat :=
      if inb then
        ((List.range (t.length - 1)).map
          (fun i => |t.getD (i + 1) 0 - t.getD i 0 - (p : Rat)|)).sum
      else 0
    if (t.length : Int) - 1 = 0 then .error "ZeroDivisionError: division by zero"
    else .ok (out / (((t.length : Int) - 1 : Int) : Rat))

/-- Model of `gaps` (lines 136-146).  Unlike `accuracy`, `len(t)` is only evaluated
under the `message_id in self` guard, so an absent id yields `[]`, never an
exception.  The error arm is unreachable (proved below): a contained id always
has `some` period and timestamps. -/
def gaps (tr : LogTree) (m? : Option Int) : Except String (List Rat) :=
  let mid? := match m? with | none => tr.message_id? | some m => some m
  let inb : Bool := match mid? with | none => false | some m => tr.contains m
  if inb then
    match tr.timestamps mid?, tr.period mid? with
    | some t, some p =>
      .ok ((List.range (t.length - 1)).map
        (fun i => t.getD (i + 1) 0 - t.getD i 0 - (p : Rat)))
    | _, _ => .error "unreachable: contained id lacks period or timestamps"
  else .ok []

/-- Model of `frequency` (lines 165-167): `len(self.timestamps(message_id))`, a
`TypeError` when the id is absent (`len(None)`). -/
def frequency (tr : LogTree) (m : Int) : Except String Nat :=
  match tr.timestamps (some m) with
  | some ts => .ok ts.length
  | none => .error "TypeError: object of type NoneType has no len()"

/-- Python dict assignment `d[k] = v`: overwrite in place when the key is
present, append otherwise. -/
def dict_insert {κ α : Type} [BEq κ] : List (κ × α) → κ → α → List (κ × α)
  | [], k, v => [(k, v)]
  | (k0, v0) :: rest, k, v =>
    if k0 == k then (k0, v) :: rest else (k0, v0) :: dict_insert rest k v

/-- Model of `sorted_by_accuracy` (lines 155-163): builds a dict *keyed by accuracy
score* (`d[self.accuracy(item)] = item`), so ids with equal scores overwrite
each other, then lists the surviving ids by ascending score.  Set iteration
over `all_message_ids()` is modeled by the list order of `all_message_ids`;
`sorted(d.items())` is a by-key sort since dict keys are distinct. -/
def sorted_by_accuracy (tr : LogTree) : Except String (List Int) := do
  let d ← tr.all_message_ids.foldlM
    (fun d item => do
      let a ← tr.accuracy (some item)
      pure (dict_insert d a item))
    ([] : List (Rat × Int))
  pure ((d.insertionSort keyLE).map Prod.snd)

/-- In-order id list (proof device; same members as `all_message_ids`). -/
def ids : LogTree → List Int
  | .empty => []
  | .node i _ _ l r => l.ids ++ i :: r.ids

/-- In-order list of node entries (id, period, timestamps); a proof device
recording the whole data content of a tree. -/
def toEntries : LogTree → List (Int × Int × List Rat)
  | .empty => []
  | .node i p ts l r => l.toEntries ++ (i, p, ts) :: r.toEntries

/-- The binary-search-tree ordering invariant of the specification: at every
node, every id in the left subtree is less than the node id, which is less
than every id in the right subtree. -/
def isBST : LogTree → Bool
  | .empty => true
  | .node i _ _ l r =>
    l.ids.all (fun x => decide (x < i)) && r.ids.all (fun x => decide (i < x)) &&
      l.isBST && r.isBST

end LogTree

/-- One entry of the tree built from aligned dict item lists. -/
def entryOf (a : Int × Int) (b : Int × List Rat) : Int × Int × List Rat :=
  (a.1, a.2, b.2)

/-! ## Helper lemmas -/

theorem except_ok_bind {ε α β : Type} (x : α) (f : α → Except ε β) :
    (Except.ok x : Except ε α) >>= f = f x := rfl

theorem except_bind_eq_ok {ε α β : Type} {x : Except ε α} {f : α → Except ε β} {b : β}
    (h : x >>= f = .ok b) : ∃ a, x = .ok a ∧ f a = .ok b := by
  cases x with
  | ok a => exact ⟨a, rfl, h⟩
  | error e => exact absurd h (by simp [Bind.bind, Except.bind])

theorem lookup_eq_none_iff {α : Type} {l : List (Int × α)} {k : Int} :
    l.lookup k = none ↔ k ∉ l.map Prod.fst := by
  induction l with
  | nil => simp [List.lookup]
  | cons a l ih =>
    cases a with
    | mk k0 v0 =>
      by_cases h : k = k0
      · subst h
        simp [List.lookup]
      · simp [List.lookup, show (k == k0) = false from beq_eq_false_iff_ne.mpr h, ih, h]

theorem mem_of_lookup_eq_some {α : Type} {l : List (Int × α)} {k : Int} {v : α}
    (h : l.lookup k = some v) : (k, v) ∈ l := by
  induction l with
  | nil => simp [List.lookup] at h
  | cons a l ih =>
    cases a with
    | mk k0 v0 =>
      by_cases hk : k = k0
      · subst hk
        simp [List.lookup] at h
        simp [h]
      · simp [List.lookup, show (k == k0) = false from beq_eq_false_iff_ne.mpr hk] at h
        simp [ih h]

theorem lookup_eq_some_of_mem {α : Type} {l : List (Int × α)} {k : Int} {v : α}
    (nd : (l.map Prod.fst).Nodup) (h : (k, v) ∈ l) : l.lookup k = some v := by
  induction l with
  | nil => simp at h
  | cons a l ih =>
    cases a with
    | mk k0 v0 =>
      rw [List.map_cons, List.nodup_cons] at nd
      rcases List.mem_cons.mp h with heq | hmem
      · cases heq
        simp [List.lookup]
      · have hk : k ≠ k0 := by
          intro hc
          rw [hc] at hmem
          exact nd.1 (List.mem_map.mpr ⟨(k0, v), hmem, rfl⟩)
        simp [List.lookup, show (k == k0) = false from beq_eq_false_iff_ne.mpr hk,
          ih nd.2 hmem]

theorem lookup_congr_perm {α : Type} {l l2 : List (Int × α)} (p : l.Perm l2)
    (nd : (l.map Prod.fst).Nodup) (k : Int) : l.lookup k = l2.lookup k := by
  have nd2 : (l2.map Prod.fst).Nodup := ((p.map Prod.fst).nodup_iff).mp nd
  cases h : l.lookup k with
  | some v =>
    exact (lookup_eq_some_of_mem nd2 (p.mem_iff.mp (mem_of_lookup_eq_some h))).symm
  | none =>
    have : k ∉ l2.map Prod.fst := by
      rw [← (p.map Prod.fst).mem_iff]
      exact lookup_eq_none_iff.mp h
    exact (lookup_eq_none_iff.mpr this).symm

theorem sortPairs_perm {α : Type} (l : List (Int × α)) : (sortPairs l).Perm l :=
  List.perm_insertionSort keyLE l

theorem length_sortPairs {α : Type} (l : List (Int × α)) :
    (sortPairs l).length = l.length :=
  (sortPairs_perm l).length_eq

theorem sortPairs_sorted {α : Type} (l : List (Int × α)) :
    List.Sorted keyLE (sortPairs l) :=
  List.sorted_insertionSort keyLE l

theorem sortPairs_eq_of_sorted {α : Type} {l : List (Int × α)}
    (h : List.Sorted keyLE l) : sortPairs l = l :=
  h.insertionSort_eq

theorem sorted_of_strictKeys {α : Type} {l : List (Int × α)}
    (h : (l.map Prod.fst).Pairwise (· < ·)) : List.Sorted keyLE l := by
  rw [List.pairwise_map] at h
  exact h.imp (fun hab => le_of_lt hab)

theorem nodupKeys_of_strictKeys {α : Type} {l : List (Int × α)}
    (h : (l.map Prod.fst).Pairwise (· < ·)) : (l.map Prod.fst).Nodup :=
  h.imp (fun hab => ne_of_lt hab)

theorem strictKeys_sortPairs {α : Type} {l : List (Int × α)}
    (nd : (l.map Prod.fst).Nodup) :
    ((sortPairs l).map Prod.fst).Pairwise (· < ·) := by
  have hle : ((sortPairs l).map Prod.fst).Pairwise (· ≤ ·) := by
    rw [List.pairwise_map]
    exact sortPairs_sorted l
  have hnd : ((sortPairs l).map Prod.fst).Nodup :=
    (((sortPairs_perm l).map Prod.fst).nodup_iff).mpr nd
  exact (hle.and hnd).imp (fun h => lt_of_le_of_ne h.1 h.2)

theorem zipWith_take_append_drop {α β γ : Type} (f : α → β → γ)
    (l1 : List α) (l2 : List β) (m : Nat) :
    List.zipWith f l1 l2 =
      List.zipWith f (l1.take m) (l2.take m) ++ List.zipWith f (l1.drop m) (l2.drop m) := by
  rw [← List.take_zipWith, ← List.drop_zipWith, List.take_append_drop]

theorem map_fst_zipWith_entryOf :
    ∀ (pd : List (Int × Int)) (td : List (Int × List Rat)),
      td.map Prod.fst = pd.map Prod.fst →
      (List.zipWith entryOf pd td).map (fun e => e.1) = pd.map Prod.fst := by
  intro pd
  induction pd with
  | nil => intro td h; simp
  | cons a pd ih =>
    intro td h
    cases td with
    | nil => simp at h
    | cons b td =>
      simp only [List.map_cons, List.cons.injEq] at h
      simp [entryOf, ih td h.2, h.1]

instance {ε α : Type} [DecidableEq ε] [DecidableEq α] : DecidableEq (Except ε α) :=
  fun x y =>
    match x, y with
    | .ok a, .ok b =>
      if h : a = b then .isTrue (by rw [h]) else .isFalse (fun hc => by cases hc; exact h rfl)
    | .error a, .error b =>
      if h : a = b then .isTrue (by rw [h]) else .isFalse (fun hc => by cases hc; exact h rfl)
    | .ok _, .error _ => .isFalse (fun hc => by cases hc)
    | .error _, .ok _ => .isFalse (fun hc => by cases hc)

/-! ## Tree lemmas -/

theorem ids_eq_map_toEntries : ∀ t : LogTree, t.ids = t.toEntries.map (fun e => e.1) := by
  intro t
  induction t with
  | empty => rfl
  | node i p ts l r ihl ihr =>
    simp [LogTree.ids, LogTree.toEntries, ihl, ihr]

theorem mem_all_message_ids_iff (t : LogTree) (k : Int) :
    k ∈ t.all_message_ids ↔ k ∈ t.ids := by
  induction t with
  | empty => simp [LogTree.all_message_ids, LogTree.ids]
  | node i p ts l r ihl ihr =>
    simp [LogTree.all_message_ids, LogTree.ids, ihl, ihr]
    tauto

theorem isBST_of_pairwise : ∀ t : LogTree, t.ids.Pairwise (· < ·) → t.isBST = true := by
  intro t
  induction t with
  | empty => intro _; rfl
  | node i p ts l r ihl ihr =>
    intro h
    rw [LogTree.ids, List.pairwise_append] at h
    obtain ⟨hl, hir, hcross⟩ := h
    rw [List.pairwise_cons] at hir
    simp only [LogTree.isBST, Bool.and_eq_true]
    refine ⟨⟨⟨?_, ?_⟩, ihl hl⟩, ihr hir.2⟩
    · rw [List.all_eq_true]
      intro x hx
      simpa using hcross x hx i (List.mem_cons_self i r.ids)
    · rw [List.all_eq_true]
      intro x hx
      simpa using hir.1 x hx

theorem bst_left_lt {i : Int} {p : Int} {ts : List Rat} {l r : LogTree}
    (h : (LogTree.node i p ts l r).isBST = true) :
    (∀ x ∈ l.ids, x < i) ∧ (∀ x ∈ r.ids, i < x) ∧ l.isBST = true ∧ r.isBST = true := by
  simp only [LogTree.isBST, Bool.and_eq_true, List.all_eq_true] at h
  refine ⟨fun x hx => ?_, fun x hx => ?_, h.1.2, h.2⟩
  · simpa using h.1.1.1 x hx
  · simpa using h.1.1.2 x hx

theorem contains_iff_mem_ids : ∀ t : LogTree, t.isBST = true →
    ∀ m : Int, (t.contains m = true ↔ m ∈ t.ids) := by
  intro t
  induction t with
  | empty => intro _ m; simp [LogTree.contains, LogTree.ids]
  | node i p ts l r ihl ihr =>
    intro hb m
    obtain ⟨hlb, hrb, hl, hr⟩ := bst_left_lt hb
    by_cases he : m = i
    · subst he
      simp [LogTree.contains, LogTree.ids]
    · by_cases hlt : m < i
      · rw [LogTree.contains]
        simp only [if_neg he, if_pos hlt]
        rw [ihl hl m, LogTree.ids]
        constructor
        · intro hm
          exact List.mem_append.mpr (Or.inl hm)
        · intro hm
          rcases List.mem_append.mp hm with h1 | h2
          · exact h1
          · rcases List.mem_cons.mp h2 with h3 | h4
            · exact absurd h3 he
            · exact absurd (hrb m h4) (by omega)
      · rw [LogTree.contains]
        simp only [if_neg he, if_neg hlt]
        rw [ihr hr m, LogTree.ids]
        constructor
        · intro hm
          exact List.mem_append.mpr (Or.inr (List.mem_cons.mpr (Or.inr hm)))
        · intro hm
          rcases List.mem_append.mp hm with h1 | h2
          · exact absurd (hlb m h1) (by omega)
          · rcases List.mem_cons.mp h2 with h3 | h4
            · exact absurd h3 he
            · exact h4

theorem find_eq_none_of_contains_eq_false : ∀ (t : LogTree) (m : Int),
    t.contains m = false → t.find m = none := by
  intro t m h
  cases t with
  | empty => rfl
  | node i p ts l r =>
    rw [LogTree.find, if_neg]
    rw [h]
    simp

theorem find_of_contains : ∀ (t : LogTree) (m : Int), t.contains m = true →
    ∃ p ts l r, t.find m = some (.node m p ts l r) ∧ (m, p, ts) ∈ t.toEntries := by
  intro t
  induction t with
  | empty => intro m h; simp [LogTree.contains] at h
  | node i p ts l r ihl ihr =>
    intro m h
    by_cases he : m = i
    · subst he
      refine ⟨p, ts, l, r, ?_, ?_⟩
      · rw [LogTree.find, if_pos h, if_pos rfl]
      · simp [LogTree.toEntries]
    · by_cases hlt : m < i
      · have hc : l.contains m = true := by
          rw [LogTree.contains, if_neg he, if_pos hlt] at h
          exact h
        obtain ⟨p2, ts2, l2, r2, hf, hmem⟩ := ihl m hc
        refine ⟨p2, ts2, l2, r2, ?_, ?_⟩
        · rw [LogTree.find, if_pos h, if_neg he, if_pos hlt]
          exact hf
        · simp [LogTree.toEntries, hmem]
      · have hc : r.contains m = true := by
          rw [LogTree.contains, if_neg he, if_neg hlt] at h
          exact h
        obtain ⟨p2, ts2, l2, r2, hf, hmem⟩ := ihr m hc
        refine ⟨p2, ts2, l2, r2, ?_, ?_⟩
        · rw [LogTree.find, if_pos h, if_neg he, if_neg hlt]
          exact hf
        · simp [LogTree.toEntries, hmem]

theorem contains_eq_true_of_find_eq_some : ∀ {t : LogTree} {m : Int} {sub : LogTree},
    t.find m = some sub → t.contains m = true := by
  intro t m sub h
  cases t with
  | empty => simp [LogTree.find] at h
  | node i p ts l r =>
    cases hc : (LogTree.node i p ts l r).contains m with
    | true => rfl
    | false =>
      rw [LogTree.find, hc] at h
      simp at h

theorem period_of_find {t : LogTree} {m : Int} {p : Int} {ts : List Rat} {l r : LogTree}
    (h : t.find m = some (.node m p ts l r)) : t.period (some m) = some p := by
  by_cases hr : t.message_id? = some m
  · cases t with
    | empty => simp [LogTree.message_id?] at hr
    | node i p0 ts0 l0 r0 =>
      rw [LogTree.message_id?, Option.some.injEq] at hr
      subst hr
      have hc : (LogTree.node i p0 ts0 l0 r0).contains i = true := by
        simp [LogTree.contains]
      rw [LogTree.find, hc] at h
      simp at h
      obtain ⟨hp2, -, -, -⟩ := h
      subst hp2
      simp [LogTree.period, LogTree.message_id?, LogTree.period_root]
  · rw [LogTree.period, if_neg hr, h]
    rfl

theorem timestamps_of_find {t : LogTree} {m : Int} {p : Int} {ts : List Rat} {l r : LogTree}
    (h : t.find m = some (.node m p ts l r)) : t.timestamps (some m) = some ts := by
  by_cases hr : t.message_id? = some m
  · cases t with
    | empty => simp [LogTree.message_id?] at hr
    | node i p0 ts0 l0 r0 =>
      rw [LogTree.message_id?, Option.some.injEq] at hr
      subst hr
      have hc : (LogTree.node i p0 ts0 l0 r0).contains i = true := by
        simp [LogTree.contains]
      rw [LogTree.find, hc] at h
      simp at h
      obtain ⟨-, hts2, -, -⟩ := h
      subst hts2
      simp [LogTree.timestamps, LogTree.message_id?, LogTree.timestamps_root]
  · rw [LogTree.timestamps, if_neg hr, h]
    rfl

theorem period_timestamps_of_contains {t : LogTree} {m : Int} (h : t.contains m = true) :
    ∃ p ts, t.period (some m) = some p ∧ t.timestamps (some m) = some ts ∧
      (m, p, ts) ∈ t.toEntries := by
  obtain ⟨p, ts, l, r, hf, hmem⟩ := find_of_contains t m h
  exact ⟨p, ts, period_of_find hf, timestamps_of_find hf, hmem⟩

theorem contains_of_timestamps_some {t : LogTree} {m : Int} {ts : List Rat}
    (h : t.timestamps (some m) = some ts) : t.contains m = true := by
  rw [LogTree.timestamps] at h
  by_cases hr : t.message_id? = some m
  · cases t with
    | empty => simp [LogTree.message_id?] at hr
    | node i p0 ts0 l0 r0 =>
      rw [LogTree.message_id?, Option.some.injEq] at hr
      subst hr
      rw [LogTree.contains]
      simp
  · rw [if_neg hr] at h
    cases hf : t.find m with
    | none => rw [hf] at h; cases h
    | some sub => exact contains_eq_true_of_find_eq_some hf

theorem gaps_never_error (tr : LogTree) (m? : Option Int) :
    ∃ l, tr.gaps m? = .ok l := by
  rcases m? with _ | m
  · cases hr : tr.message_id? with
    | none => exact ⟨[], by simp [LogTree.gaps, hr]⟩
    | some i =>
      cases hc : tr.contains i with
      | false => exact ⟨[], by simp [LogTree.gaps, hr, hc]⟩
      | true =>
        obtain ⟨p, ts, hp, ht, _⟩ := period_timestamps_of_contains hc
        refine ⟨(List.range (ts.length - 1)).map
          (fun i => ts.getD (i + 1) 0 - ts.getD i 0 - (p : Rat)), ?_⟩
        simp [LogTree.gaps, hr, hc, hp, ht]
  · cases hc : tr.contains m with
    | false => exact ⟨[], by simp [LogTree.gaps, hc]⟩
    | true =>
      obtain ⟨p, ts, hp, ht, _⟩ := period_timestamps_of_contains hc
      refine ⟨(List.range (ts.length - 1)).map
        (fun i => ts.getD (i + 1) 0 - ts.getD i 0 - (p : Rat)), ?_⟩
      simp [LogTree.gaps, hc, hp, ht]

/-! ## Construction lemmas -/

theorem strictKeys_take {α : Type} {l : List (Int × α)}
    (h : (l.map Prod.fst).Pairwise (· < ·)) (m : Nat) :
    ((l.take m).map Prod.fst).Pairwise (· < ·) := by
  rw [List.map_take]
  exact List.Pairwise.sublist (List.take_sublist m _) h

theorem strictKeys_drop {α : Type} {l : List (Int × α)}
    (h : (l.map Prod.fst).Pairwise (· < ·)) (m : Nat) :
    ((l.drop m).map Prod.fst).Pairwise (· < ·) := by
  rw [List.map_drop]
  exact List.Pairwise.sublist (List.drop_sublist m _) h

theorem zipWith_entryOf_split {pd : List (Int × Int)} {td : List (Int × List Rat)}
    {m : Nat} {a : Int × Int} {b : Int × List Rat}
    (hlen : td.length = pd.length) (ha : pd[m]? = some a) (hb : td[m]? = some b) :
    List.zipWith entryOf pd td =
      List.zipWith entryOf (pd.take m) (td.take m) ++
        entryOf a b :: List.zipWith entryOf (pd.drop (m + 1)) (td.drop (m + 1)) := by
  have hm : m < pd.length := by
    by_contra hcon
    rw [List.getElem?_eq_none (by omega)] at ha
    cases ha
  have hm2 : m < td.length := by omega
  rw [zipWith_take_append_drop entryOf pd td m]
  congr 1
  rw [List.drop_eq_getElem_cons hm, List.drop_eq_getElem_cons hm2]
  rw [List.getElem?_eq_getElem hm] at ha
  rw [List.getElem?_eq_getElem hm2] at hb
  simp only [Option.some.injEq] at ha hb
  rw [ha, hb]
  simp

theorem initCore_ok : ∀ (fuel : Nat) (pd : List (Int × Int)) (td : List (Int × List Rat)),
    pd.length < fuel →
    (pd.map Prod.fst).Pairwise (· < ·) →
    td.map Prod.fst = pd.map Prod.fst →
    pd ≠ [] →
    ∃ t : LogTree, initCore fuel pd td = .ok t ∧
      t.toEntries = List.zipWith entryOf pd td := by
  intro fuel
  induction fuel with
  | zero => intro pd td hf; omega
  | succ fuel ih =>
    intro pd td hf hsort hkeys hne
    have hnpos : 0 < pd.length := List.length_pos.mpr hne
    have hlen_td : td.length = pd.length := by
      have h2 := congrArg List.length hkeys
      simpa using h2
    have htd_sort : (td.map Prod.fst).Pairwise (· < ·) := by rw [hkeys]; exact hsort
    have hspd : sortPairs pd = pd := sortPairs_eq_of_sorted (sorted_of_strictKeys hsort)
    have hstd : sortPairs td = td := sortPairs_eq_of_sorted (sorted_of_strictKeys htd_sort)
    have hmid : pd.length / 2 < pd.length := Nat.div_lt_self hnpos (by omega)
    have hmid2 : pd.length / 2 < td.length := by omega
    obtain ⟨a, ha⟩ : ∃ a, pd[pd.length / 2]? = some a := by
      rw [List.getElem?_eq_getElem hmid]
      exact ⟨_, rfl⟩
    obtain ⟨b, hb⟩ : ∃ b, td[pd.length / 2]? = some b := by
      rw [List.getElem?_eq_getElem hmid2]
      exact ⟨_, rfl⟩
    have hab : b.1 = a.1 := by
      have h3 : (td.map Prod.fst)[pd.length / 2]? = (pd.map Prod.fst)[pd.length / 2]? := by
        rw [hkeys]
      rw [List.getElem?_map, List.getElem?_map, ha, hb] at h3
      simpa using h3
    have hLp : pd.lookup a.1 = some a.2 := by
      apply lookup_eq_some_of_mem (nodupKeys_of_strictKeys hsort)
      rw [Prod.mk.eta]
      exact List.getElem?_mem ha
    have hLt : td.lookup a.1 = some b.2 := by
      apply lookup_eq_some_of_mem (nodupKeys_of_strictKeys htd_sort)
      rw [← hab, Prod.mk.eta]
      exact List.getElem?_mem hb
    by_cases h1 : pd.length = 1
    · refine ⟨.node a.1 a.2 b.2 .empty .empty, ?_, ?_⟩
      · rw [initCore]
        simp only [hspd, hstd, ha, hLp, hLt]
        rw [if_pos h1]
      · rw [zipWith_entryOf_split hlen_td ha hb]
        have ht0 : pd.take (pd.length / 2) = [] := by
          rw [h1]
          rfl
        have ht1 : td.take (pd.length / 2) = [] := by
          rw [h1]
          rfl
        have hd0 : pd.drop (pd.length / 2 + 1) = [] := List.drop_eq_nil_of_le (by omega)
        have hd1 : td.drop (pd.length / 2 + 1) = [] := List.drop_eq_nil_of_le (by omega)
        rw [ht0, ht1, hd0, hd1]
        simp [LogTree.toEntries, entryOf]
    · by_cases h2 : pd.length = 2
      · obtain ⟨l, hl, hle⟩ := ih (pd.take (pd.length / 2)) (td.take (pd.length / 2))
          (by rw [List.length_take]; omega)
          (strictKeys_take hsort _)
          (by rw [List.map_take, List.map_take, hkeys])
          (by
            apply List.ne_nil_of_length_pos
            rw [List.length_take]
            omega)
        refine ⟨.node a.1 a.2 b.2 l .empty, ?_, ?_⟩
        · rw [initCore]
          simp only [hspd, hstd, ha, hLp, hLt]
          rw [if_neg h1, if_pos h2, hl]
          rfl
        · rw [zipWith_entryOf_split hlen_td ha hb]
          have hd0 : pd.drop (pd.length / 2 + 1) = [] := List.drop_eq_nil_of_le (by omega)
          have hd1 : td.drop (pd.length / 2 + 1) = [] := List.drop_eq_nil_of_le (by omega)
          rw [hd0, hd1]
          simp [LogTree.toEntries, entryOf, hle]
      · have h3 : 2 < pd.length := by omega
        obtain ⟨l, hl, hle⟩ := ih (pd.take (pd.length / 2)) (td.take (pd.length / 2))
          (by rw [List.length_take]; omega)
          (strictKeys_take hsort _)
          (by rw [List.map_take, List.map_take, hkeys])
          (by
            apply List.ne_nil_of_length_pos
            rw [List.length_take]
            omega)
        obtain ⟨r, hr, hre⟩ := ih (pd.drop (pd.length / 2 + 1)) (td.drop (pd.length / 2 + 1))
          (by rw [List.length_drop]; omega)
          (strictKeys_drop hsort _)
          (by rw [List.map_drop, List.map_drop, hkeys])
          (by
            apply List.ne_nil_of_length_pos
            rw [List.length_drop]
            omega)
        refine ⟨.node a.1 a.2 b.2 l r, ?_, ?_⟩
        · rw [initCore]
          simp only [hspd, hstd, ha, hLp, hLt]
          rw [if_neg h1, if_neg h2, if_pos h3]
          rw [hl, hr]
          rfl
        · rw [zipWith_entryOf_split hlen_td ha hb]
          simp [LogTree.toEntries, entryOf, hle, hre]

theorem initCore_fuel_irrelevant : ∀ (f1 f2 : Nat) (pd : List (Int × Int))
    (td : List (Int × List Rat)),
    pd.length < f1 → pd.length < f2 →
    initCore f1 pd td = initCore f2 pd td := by
  intro f1
  induction f1 with
  | zero => intro f2 pd td h1 h2; omega
  | succ f1 ih =>
    intro f2 pd td h1 h2
    cases f2 with
    | zero => omega
    | succ f2 =>
      rw [initCore, initCore]
      cases hm : (sortPairs pd)[pd.length / 2]? with
      | none => simp only [hm]
      | some me =>
        simp only [hm]
        cases hp : pd.lookup me.1 with
        | none => simp only [hp]
        | some p =>
          cases ht : td.lookup me.1 with
          | none => simp only [hp, ht]
          | some ts =>
            simp only [hp, ht]
            by_cases hn1 : pd.length = 1
            · simp only [if_pos hn1]
            · simp only [if_neg hn1]
              have hnpos : 0 < pd.length := by
                by_contra hc
                rw [List.getElem?_eq_none (by rw [length_sortPairs]; omega)] at hm
                cases hm
              have hmidlt : pd.length / 2 < pd.length := Nat.div_lt_self hnpos (by omega)
              have hlt1 : ((sortPairs pd).take (pd.length / 2)).length < f1 := by
                rw [List.length_take, length_sortPairs]
                omega
              have hlt2 : ((sortPairs pd).take (pd.length / 2)).length < f2 := by
                rw [List.length_take, length_sortPairs]
                omega
              have hld1 : ((sortPairs pd).drop (pd.length / 2 + 1)).length < f1 := by
                rw [List.length_drop, length_sortPairs]
                omega
              have hld2 : ((sortPairs pd).drop (pd.length / 2 + 1)).length < f2 := by
                rw [List.length_drop, length_sortPairs]
                omega
              by_cases hn2 : pd.length = 2
              · simp only [if_pos hn2]
                rw [ih f2 _ _ hlt1 hlt2]
              · simp only [if_neg hn2]
                by_cases hn3 : 2 < pd.length
                · simp only [if_pos hn3]
                  rw [ih f2 _ _ hlt1 hlt2, ih f2 _ _ hld1 hld2]
                · simp only [if_neg hn3]

theorem initCore_sort_left (fuel : Nat) (pd : List (Int × Int)) (td : List (Int × List Rat))
    (nd : (pd.map Prod.fst).Nodup) :
    initCore fuel pd td = initCore fuel (sortPairs pd) td := by
  cases fuel with
  | zero => rfl
  | succ fuel =>
    rw [initCore, initCore]
    have hss : sortPairs (sortPairs pd) = sortPairs pd :=
      sortPairs_eq_of_sorted (sortPairs_sorted pd)
    have hlen : (sortPairs pd).length = pd.length := length_sortPairs pd
    have hlook : ∀ k, pd.lookup k = (sortPairs pd).lookup k :=
      fun k => lookup_congr_perm (sortPairs_perm pd).symm nd k
    simp only [hss, hlen, hlook]

theorem initCore_sort_right (fuel : Nat) (pd : List (Int × Int)) (td : List (Int × List Rat))
    (nd : (td.map Prod.fst).Nodup) :
    initCore fuel pd td = initCore fuel pd (sortPairs td) := by
  cases fuel with
  | zero => rfl
  | succ fuel =>
    rw [initCore, initCore]
    have hss : sortPairs (sortPairs td) = sortPairs td :=
      sortPairs_eq_of_sorted (sortPairs_sorted td)
    have hlook : ∀ k, td.lookup k = (sortPairs td).lookup k :=
      fun k => lookup_congr_perm (sortPairs_perm td).symm nd k
    simp only [hss, hlook]

theorem buildDict_ok (pd : List (Int × Int)) (td : List (Int × List Rat))
    (hpd : (pd.map Prod.fst).Nodup) (htd : (td.map Prod.fst).Nodup)
    (hkeys : (td.map Prod.fst).Perm (pd.map Prod.fst)) (hne : pd ≠ []) :
    ∃ t : LogTree, buildDict pd td = .ok t ∧
      t.toEntries = List.zipWith entryOf (sortPairs pd) (sortPairs td) ∧
      t.ids = (sortPairs pd).map Prod.fst := by
  have hsp : ((sortPairs pd).map Prod.fst).Pairwise (· < ·) := strictKeys_sortPairs hpd
  have hst : ((sortPairs td).map Prod.fst).Pairwise (· < ·) := strictKeys_sortPairs htd
  have hkeyeq : (sortPairs td).map Prod.fst = (sortPairs pd).map Prod.fst := by
    have hs1 : List.Sorted (· ≤ ·) ((sortPairs td).map Prod.fst) :=
      hst.imp (fun h => le_of_lt h)
    have hs2 : List.Sorted (· ≤ ·) ((sortPairs pd).map Prod.fst) :=
      hsp.imp (fun h => le_of_lt h)
    exact List.eq_of_perm_of_sorted
      (((sortPairs_perm td).map Prod.fst).trans
        (hkeys.trans ((sortPairs_perm pd).map Prod.fst).symm))
      hs1 hs2
  have hlen : (sortPairs pd).length = pd.length := length_sortPairs pd
  have hne2 : sortPairs pd ≠ [] := by
    apply List.ne_nil_of_length_pos
    rw [hlen]
    exact List.length_pos.mpr hne
  obtain ⟨t, hok, hent⟩ := initCore_ok (pd.length + 1) (sortPairs pd) (sortPairs td)
    (by rw [hlen]; omega) hsp hkeyeq hne2
  refine ⟨t, ?_, hent, ?_⟩
  · rw [buildDict, initCore_sort_left _ _ _ hpd, initCore_sort_right _ _ _ htd]
    exact hok
  · rw [ids_eq_map_toEntries, hent]
    exact map_fst_zipWith_entryOf _ _ hkeyeq

/-! ## Claim theorems -/

/-- C1: for a pair of input dicts with equal, finite key sets of distinct ids
(nonempty, since the constructor cannot build a tree from empty dicts),
construction succeeds and: `all_message_ids` of the built tree is exactly the
input id set; every input id is contained, with `find` returning a node whose
`message_id` is that id; every other id is not contained, with `find`
returning `none` (not found). -/
theorem C1_lookup_and_ids (pd : List (Int × Int)) (td : List (Int × List Rat))
    (hpd : (pd.map Prod.fst).Nodup) (htd : (td.map Prod.fst).Nodup)
    (hkeys : (td.map Prod.fst).Perm (pd.map Prod.fst)) (hne : pd ≠ []) :
    ∃ t : LogTree, LogTree.init (some pd) (some td) = .ok t ∧
      (∀ k, k ∈ t.all_message_ids ↔ k ∈ pd.map Prod.fst) ∧
      (∀ k, k ∈ pd.map Prod.fst →
        t.contains k = true ∧ ∃ p ts l r, t.find k = some (.node k p ts l r)) ∧
      (∀ k, k ∉ pd.map Prod.fst → t.contains k = false ∧ t.find k = none) := by
  obtain ⟨t, hok, hent, hids⟩ := buildDict_ok pd td hpd htd hkeys hne
  have hsp : ((sortPairs pd).map Prod.fst).Pairwise (· < ·) := strictKeys_sortPairs hpd
  have hbst : t.isBST = true := isBST_of_pairwise t (by rw [hids]; exact hsp)
  have hmemids : ∀ k, k ∈ t.ids ↔ k ∈ pd.map Prod.fst := by
    intro k
    rw [hids]
    exact ((sortPairs_perm pd).map Prod.fst).mem_iff
  refine ⟨t, hok, ?_, ?_, ?_⟩
  · intro k
    rw [mem_all_message_ids_iff, hmemids]
  · intro k hk
    have hc : t.contains k = true :=
      (contains_iff_mem_ids t hbst k).mpr ((hmemids k).mpr hk)
    obtain ⟨p, ts, l, r, hf, _⟩ := find_of_contains t k hc
    exact ⟨hc, p, ts, l, r, hf⟩
  · intro k hk
    have hc : t.contains k = false := by
      cases hcc : t.contains k with
      | false => rfl
      | true => exact absurd ((hmemids k).mp ((contains_iff_mem_ids t hbst k).mp hcc)) hk
    exact ⟨hc, find_eq_none_of_contains_eq_false t k hc⟩

/-- Witness for C1: a concrete two-id input (given unsorted). -/
theorem C1_lookup_and_ids_witness :
    (([(2, 200), (1, 100)] : List (Int × Int)).map Prod.fst).Nodup ∧
    (([(1, []), (2, [])] : List (Int × List Rat)).map Prod.fst).Nodup ∧
    ((([(1, []), (2, [])] : List (Int × List Rat)).map Prod.fst).Perm
      (([(2, 200), (1, 100)] : List (Int × Int)).map Prod.fst)) ∧
    (∃ t : LogTree,
      LogTree.init (some [(2, 200), (1, 100)]) (some [(1, []), (2, [])]) = .ok t ∧
      (∀ k, k ∈ t.all_message_ids ↔ k ∈ ([(2, 200), (1, 100)] : List (Int × Int)).map Prod.fst) ∧
      (∀ k, k ∈ ([(2, 200), (1, 100)] : List (Int × Int)).map Prod.fst →
        t.contains k = true ∧ ∃ p ts l r, t.find k = some (.node k p ts l r)) ∧
      (∀ k, k ∉ ([(2, 200), (1, 100)] : List (Int × Int)).map Prod.fst →
        t.contains k = false ∧ t.find k = none)) :=
  ⟨by decide, by decide, by decide,
    C1_lookup_and_ids [(2, 200), (1, 100)] [(1, []), (2, [])]
      (by decide) (by decide) (by decide) (by decide)⟩

/-- C3: every tree successfully produced by the constructor (on dict inputs
with distinct keys and, when both are present, equal key sets) satisfies the
binary-search-tree ordering invariant at every node. -/
theorem C3_bst (pd? : Option (List (Int × Int))) (td? : Option (List (Int × List Rat)))
    (t : LogTree)
    (hok : LogTree.init pd? td? = .ok t)
    (hdicts : match pd?, td? with
      | some pd, some td =>
        (pd.map Prod.fst).Nodup ∧ (td.map Prod.fst).Nodup ∧
          (td.map Prod.fst).Perm (pd.map Prod.fst)
      | _, _ => True) :
    t.isBST = true := by
  match pd?, td? with
  | none, none =>
    rw [LogTree.init] at hok
    cases hok
    rfl
  | none, some td => simp [LogTree.init] at hok
  | some pd, none => simp [LogTree.init] at hok
  | some pd, some td =>
    obtain ⟨h1, h2, h3⟩ := hdicts
    by_cases hne : pd = []
    · subst hne
      simp [LogTree.init, buildDict, initCore, sortPairs, List.insertionSort] at hok
    · obtain ⟨t2, hok2, _, hids⟩ := buildDict_ok pd td h1 h2 h3 hne
      simp only [LogTree.init] at hok
      rw [hok2] at hok
      cases hok
      exact isBST_of_pairwise t (by rw [hids]; exact strictKeys_sortPairs h1)

/-- Witness for C3 at a concrete input. -/
theorem C3_bst_witness :
    LogTree.init (some [(2, 1), (1, 1)]) (some [(1, []), (2, [])]) =
      .ok (.node 2 1 [] (.node 1 1 [] .empty .empty) .empty) ∧
    (LogTree.node 2 1 [] (.node 1 1 [] .empty .empty) .empty).isBST = true :=
  ⟨by decide,
    C3_bst (some [(2, 1), (1, 1)]) (some [(1, []), (2, [])]) _ (by decide) (by decide)⟩

/-- C4: for an id present in the tree with timestamp list `ts` of length at
least 2 and configured period `p`, `gaps` returns exactly the list
`ts[i+1] - ts[i] - p` for `i` in `[0, len(ts)-2]`, whose length is
`frequency - 1`, and `accuracy` returns the mean of the absolute values of
that list. -/
theorem C4_gaps_accuracy (tr : LogTree) (m : Int) (p : Int) (ts : List Rat)
    (hp : tr.period (some m) = some p) (ht : tr.timestamps (some m) = some ts)
    (h2 : 2 ≤ ts.length) :
    ∃ g : List Rat,
      tr.gaps (some m) = .ok g ∧
      g = (List.range (ts.length - 1)).map
        (fun i => ts.getD (i + 1) 0 - ts.getD i 0 - (p : Rat)) ∧
      tr.frequency m = .ok ts.length ∧
      g.length = ts.length - 1 ∧
      tr.accuracy (some m) = .ok ((g.map (fun x => |x|)).sum / (g.length : Rat)) := by
  have hc : tr.contains m = true := contains_of_timestamps_some ht
  refine ⟨(List.range (ts.length - 1)).map
    (fun i => ts.getD (i + 1) 0 - ts.getD i 0 - (p : Rat)), ?_, rfl, ?_, ?_, ?_⟩
  · simp [LogTree.gaps, hc, hp, ht]
  · rw [LogTree.frequency, ht]
  · simp
  · have hlen : ((List.range (ts.length - 1)).map
        (fun i => ts.getD (i + 1) 0 - ts.getD i 0 - (p : Rat))).length = ts.length - 1 := by
      simp
    rw [hlen]
    have habs : (((List.range (ts.length - 1)).map
        (fun i => ts.getD (i + 1) 0 - ts.getD i 0 - (p : Rat))).map (fun x => |x|)).sum =
        ((List.range (ts.length - 1)).map
          (fun i => |ts.getD (i + 1) 0 - ts.getD i 0 - (p : Rat)|)).sum := by
      rw [List.map_map]
      rfl
    rw [habs]
    have hne0 : ¬ ((ts.length : Int) - 1 = 0) := by omega
    have hcast : (((ts.length : Int) - 1 : Int) : Rat) = ((ts.length - 1 : Nat) : Rat) := by
      push_cast [Nat.cast_sub (by omega : 1 ≤ ts.length)]
      ring
    simp only [LogTree.accuracy, ht, hp, hc, Option.getD_some, if_pos, if_neg hne0, hcast]
  
/-- Witness for C4 at a concrete tree with three timestamps. -/
theorem C4_gaps_accuracy_witness :
    (LogTree.node 1 100 [0, 100, 200] .empty .empty).period (some 1) = some 100 ∧
    (LogTree.node 1 100 [0, 100, 200] .empty .empty).timestamps (some 1) = some [0, 100, 200] ∧
    2 ≤ ([0, 100, 200] : List Rat).length ∧
    (∃ g : List Rat,
      (LogTree.node 1 100 [0, 100, 200] .empty .empty).gaps (some 1) = .ok g ∧
      g = (List.range (([0, 100, 200] : List Rat).length - 1)).map
        (fun i => ([0, 100, 200] : List Rat).getD (i + 1) 0 -
          ([0, 100, 200] : List Rat).getD i 0 - ((100 : Int) : Rat)) ∧
      (LogTree.node 1 100 [0, 100, 200] .empty .empty).frequency 1 =
        .ok ([0, 100, 200] : List Rat).length ∧
      g.length = ([0, 100, 200] : List Rat).length - 1 ∧
      (LogTree.node 1 100 [0, 100, 200] .empty .empty).accuracy (some 1) =
        .ok ((g.map (fun x => |x|)).sum / (g.length : Rat))) :=
  ⟨by decide, by decide, by decide,
    C4_gaps_accuracy (.node 1 100 [0, 100, 200] .empty .empty) 1 100 [0, 100, 200]
      (by decide) (by decide) (by decide)⟩

/-- C10: for every tree and every id that is either absent or present with
fewer than two timestamps, `gaps` returns the empty list without raising (the
hypothesis covers both cases at once: when the id is absent, `timestamps` is
`none`).  In particular an empty `gaps` result does not distinguish a missing
id from a present id with too few timestamps. -/
theorem C10_gaps_empty (tr : LogTree) (m : Int)
    (h : (tr.timestamps (some m)).all (fun ts => decide (ts.length < 2)) = true) :
    tr.gaps (some m) = .ok [] := by
  cases hc : tr.contains m with
  | false => simp [LogTree.gaps, hc]
  | true =>
    obtain ⟨p, ts, hp, ht, _⟩ := period_timestamps_of_contains hc
    rw [ht] at h
    simp only [Option.all_some, decide_eq_true_eq] at h
    have hr : ts.length - 1 = 0 := by omega
    simp [LogTree.gaps, hc, hp, ht, hr]

/-- Witness for C10: both an absent id and a present one-timestamp id. -/
theorem C10_gaps_empty_witness :
    ((LogTree.node 5 50 [10] .empty .empty).timestamps (some 7)).all
      (fun ts => decide (ts.length < 2)) = true ∧
    ((LogTree.node 5 50 [10] .empty .empty).timestamps (some 5)).all
      (fun ts => decide (ts.length < 2)) = true ∧
    (LogTree.node 5 50 [10] .empty .empty).gaps (some 7) = .ok [] ∧
    (LogTree.node 5 50 [10] .empty .empty).gaps (some 5) = .ok [] :=
  ⟨by decide, by decide,
    C10_gaps_empty (.node 5 50 [10] .empty .empty) 7 (by decide),
    C10_gaps_empty (.node 5 50 [10] .empty .empty) 5 (by decide)⟩

/-! ## Concrete trees for the concrete claims -/

/-- The tree built from periods {1:100} and timestamps {1:[0,100]}. -/
def treeOneId : LogTree := .node 1 100 [0, 100] .empty .empty

/-- The tree built from periods {5:50} and timestamps {5:[10.0]}. -/
def treeSingleTs : LogTree := .node 5 50 [10] .empty .empty

/-- The tree built from periods {1:100, 2:100} and timestamps
{1:[0,100], 2:[0,100]} (two ids with identical accuracy scores). -/
def treeTie : LogTree :=
  .node 2 100 [0, 100] (.node 1 100 [0, 100] .empty .empty) .empty

/-- The tree built from the concrete scenario periods {1:100, 2:200, 3:150}
and timestamps {1:[0,100,200], 2:[0,205,395], 3:[]}. -/
def treeScenario : LogTree :=
  .node 2 200 [0, 205, 395] (.node 1 100 [0, 100, 200] .empty .empty)
    (.node 3 150 [] .empty .empty)

/-- C5 (evidence of the code bug): on the tree built from periods {1:100} and
timestamps {1:[0,100]}, querying the absent id 2: `period` and `timestamps`
return an absent result, but `accuracy` and `frequency` raise a `TypeError`
(`len(None)`) and `gaps` returns `[]` instead of an absent result. -/
theorem C5_absent_id_queries :
    LogTree.init (some [(1, 100)]) (some [(1, [0, 100])]) = .ok treeOneId ∧
    treeOneId.period (some 2) = none ∧
    treeOneId.timestamps (some 2) = none ∧
    treeOneId.accuracy (some 2) = .error "TypeError: object of type NoneType has no len()" ∧
    treeOneId.gaps (some 2) = .ok [] ∧
    treeOneId.frequency 2 = .error "TypeError: object of type NoneType has no len()" :=
  ⟨by decide, by decide, by decide, by decide, by decide, by decide⟩

/-- C6 (evidence of the code bug): on the tree built from periods {5:50} and
timestamps {5:[10.0]}, the present id 5 has exactly one timestamp and
`accuracy(5)` raises a ZeroDivisionError, while `gaps(5)` returns `[]`. -/
theorem C6_single_timestamp_divzero :
    LogTree.init (some [(5, 50)]) (some [(5, [10])]) = .ok treeSingleTs ∧
    treeSingleTs.contains 5 = true ∧
    treeSingleTs.frequency 5 = .ok 1 ∧
    treeSingleTs.accuracy (some 5) = .error "ZeroDivisionError: division by zero" ∧
    treeSingleTs.gaps (some 5) = .ok [] :=
  ⟨by decide, by decide, by decide, by decide, by decide⟩

/-- C8 counterexample: constructing with both dicts present but empty raises
an IndexError (`sorted(period_dict.items())[0]` on an empty list) instead of
returning the empty sentinel tree. -/
theorem C8_empty_dicts_error :
    LogTree.init (some []) (some []) = .error "IndexError: list index out of range" := by
  decide

/-- C8 amended: both inputs absent give the empty sentinel (a valid state, not
an error); exactly one input absent raises and produces no tree; both inputs
present but empty also produce no tree (IndexError), unlike what the claim
states for empty mappings. -/
theorem C8_construction_cases :
    LogTree.init none none = .ok .empty ∧
    (∀ pd : List (Int × Int), LogTree.init (some pd) none =
      .error "Arguments must either both be file names or both be NoneType.") ∧
    (∀ td : List (Int × List Rat), LogTree.init none (some td) =
      .error "Arguments must either both be file names or both be NoneType.") ∧
    LogTree.init (some []) (some []) = .error "IndexError: list index out of range" :=
  ⟨rfl, fun _ => rfl, fun _ => rfl, by decide⟩

theorem treeTie_accuracy_1 : treeTie.accuracy (some 1) = .ok 0 := by
  simp [LogTree.accuracy, LogTree.timestamps, LogTree.message_id?, LogTree.timestamps_root,
    LogTree.period, LogTree.period_root, LogTree.find, LogTree.contains, treeTie,
    List.range_succ]

theorem treeTie_accuracy_2 : treeTie.accuracy (some 2) = .ok 0 := by
  simp [LogTree.accuracy, LogTree.timestamps, LogTree.message_id?, LogTree.timestamps_root,
    LogTree.period, LogTree.period_root, LogTree.find, LogTree.contains, treeTie,
    List.range_succ]

/-- C7 (evidence of the code bug): on the tree holding ids 1 and 2, both with
accuracy score 0.0, `sorted_by_accuracy` returns a one-element list: keying
the intermediate dict by score collapses ids with equal scores, so id 2 is
dropped even though it is in the tree. -/
theorem C7_duplicate_scores_dropped :
    LogTree.init (some [(1, 100), (2, 100)]) (some [(1, [0, 100]), (2, [0, 100])]) =
      .ok treeTie ∧
    treeTie.contains 1 = true ∧ treeTie.contains 2 = true ∧
    treeTie.all_message_ids.length = 2 ∧
    treeTie.accuracy (some 1) = .ok 0 ∧ treeTie.accuracy (some 2) = .ok 0 ∧
    treeTie.sorted_by_accuracy = .ok [1] := by
  refine ⟨by decide, by decide, by decide, by decide,
    treeTie_accuracy_1, treeTie_accuracy_2, ?_⟩
  simp [LogTree.sorted_by_accuracy, LogTree.all_message_ids, LogTree.accuracy,
    LogTree.timestamps, LogTree.message_id?, LogTree.timestamps_root, LogTree.period,
    LogTree.period_root, LogTree.find, LogTree.contains, treeTie, List.range_succ,
    LogTree.dict_insert, List.foldlM, List.insertionSort, List.orderedInsert,
    except_ok_bind, keyLE]

theorem treeScenario_accuracy_1 : treeScenario.accuracy (some 1) = .ok 0 := by
  simp [LogTree.accuracy, LogTree.timestamps, LogTree.message_id?, LogTree.timestamps_root,
    LogTree.period, LogTree.period_root, LogTree.find, LogTree.contains, treeScenario,
    List.range_succ]
  norm_num

theorem treeScenario_accuracy_2 : treeScenario.accuracy (some 2) = .ok (15 / 2 : Rat) := by
  simp [LogTree.accuracy, LogTree.timestamps, LogTree.message_id?, LogTree.timestamps_root,
    LogTree.period, LogTree.period_root, LogTree.find, LogTree.contains, treeScenario,
    List.range_succ]
  norm_num

/-- C9 counterexample: on the concrete scenario input the built tree gives
`accuracy(2) = 7.5` (deviations 205-0-200 = 5 and 395-205-200 = -10, mean of
absolute values 15/2), not the claimed 2.5. -/
theorem C9_accuracy_2_not_5_halves :
    LogTree.init (some [(1, 100), (2, 200), (3, 150)])
      (some [(1, [0, 100, 200]), (2, [0, 205, 395]), (3, [])]) = .ok treeScenario ∧
    treeScenario.accuracy (some 2) ≠ .ok (5 / 2 : Rat) := by
  refine ⟨by decide, ?_⟩
  rw [treeScenario_accuracy_2]
  intro hc
  rw [Except.ok.injEq] at hc
  norm_num at hc

/-- C9 amended: for the concrete input periods {1:100, 2:200, 3:150} and
timestamps {1:[0,100,200], 2:[0,205,395], 3:[]}, the built tree contains
exactly the ids {1,2,3}, `accuracy(1) = 0.0`, and `accuracy(2) = 7.5`
(the claim said 2.5, an arithmetic slip). -/
theorem C9_scenario_values :
    LogTree.init (some [(1, 100), (2, 200), (3, 150)])
      (some [(1, [0, 100, 200]), (2, [0, 205, 395]), (3, [])]) = .ok treeScenario ∧
    treeScenario.all_message_ids.toFinset = ({1, 2, 3} : Finset Int) ∧
    treeScenario.contains 1 = true ∧ treeScenario.contains 2 = true ∧
    treeScenario.contains 3 = true ∧
    treeScenario.accuracy (some 1) = .ok 0 ∧
    treeScenario.accuracy (some 2) = .ok (15 / 2 : Rat) :=
  ⟨by decide, by decide, by decide, by decide, by decide,
    treeScenario_accuracy_1, treeScenario_accuracy_2⟩

theorem buildDict_shape (pd : List (Int × Int)) (td : List (Int × List Rat))
    (hsort : (pd.map Prod.fst).Pairwise (· < ·))
    (hkeys : td.map Prod.fst = pd.map Prod.fst)
    (hne : pd ≠ []) :
    ∃ a b l r, pd[pd.length / 2]? = some a ∧ td[pd.length / 2]? = some b ∧
      buildDict pd td = .ok (.node a.1 a.2 b.2 l r) ∧
      (pd.length = 1 → l = .empty ∧ r = .empty) ∧
      (2 ≤ pd.length →
        buildDict (pd.take (pd.length / 2)) (td.take (pd.length / 2)) = .ok l) ∧
      (pd.length ≤ 2 → r = .empty) ∧
      (3 ≤ pd.length →
        buildDict (pd.drop (pd.length / 2 + 1)) (td.drop (pd.length / 2 + 1)) = .ok r) := by
  have hnpos : 0 < pd.length := List.length_pos.mpr hne
  have hlen_td : td.length = pd.length := by
    have h2 := congrArg List.length hkeys
    simpa using h2
  have htd_sort : (td.map Prod.fst).Pairwise (· < ·) := by rw [hkeys]; exact hsort
  have hspd : sortPairs pd = pd := sortPairs_eq_of_sorted (sorted_of_strictKeys hsort)
  have hstd : sortPairs td = td := sortPairs_eq_of_sorted (sorted_of_strictKeys htd_sort)
  have hmid : pd.length / 2 < pd.length := Nat.div_lt_self hnpos (by omega)
  have hmid2 : pd.length / 2 < td.length := by omega
  obtain ⟨a, ha⟩ : ∃ a, pd[pd.length / 2]? = some a := by
    rw [List.getElem?_eq_getElem hmid]
    exact ⟨_, rfl⟩
  obtain ⟨b, hb⟩ : ∃ b, td[pd.length / 2]? = some b := by
    rw [List.getElem?_eq_getElem hmid2]
    exact ⟨_, rfl⟩
  have hLp : pd.lookup a.1 = some a.2 := by
    apply lookup_eq_some_of_mem (nodupKeys_of_strictKeys hsort)
    rw [Prod.mk.eta]
    exact List.getElem?_mem ha
  have hLt : td.lookup a.1 = some b.2 := by
    have hab : b.1 = a.1 := by
      have h3 : (td.map Prod.fst)[pd.length / 2]? = (pd.map Prod.fst)[pd.length / 2]? := by
        rw [hkeys]
      rw [List.getElem?_map, List.getElem?_map, ha, hb] at h3
      simpa using h3
    apply lookup_eq_some_of_mem (nodupKeys_of_strictKeys htd_sort)
    rw [← hab, Prod.mk.eta]
    exact List.getElem?_mem hb
  by_cases h1 : pd.length = 1
  · refine ⟨a, b, .empty, .empty, ha, hb, ?_, fun _ => ⟨rfl, rfl⟩,
      fun hcon => (by omega : False).elim, fun _ => rfl,
      fun hcon => (by omega : False).elim⟩
    rw [buildDict, initCore]
    simp only [hspd, hstd, ha, hLp, hLt]
    rw [if_pos h1]
  · by_cases h2 : pd.length = 2
    · obtain ⟨l, hl, _⟩ := initCore_ok pd.length (pd.take (pd.length / 2))
        (td.take (pd.length / 2))
        (by rw [List.length_take]; omega)
        (strictKeys_take hsort _)
        (by rw [List.map_take, List.map_take, hkeys])
        (by apply List.ne_nil_of_length_pos; rw [List.length_take]; omega)
      refine ⟨a, b, l, .empty, ha, hb, ?_,
        fun hcon => (by omega : False).elim, fun _ => ?_, fun _ => rfl,
        fun hcon => (by omega : False).elim⟩
      · rw [buildDict, initCore]
        simp only [hspd, hstd, ha, hLp, hLt]
        rw [if_neg h1, if_pos h2, hl]
        rfl
      · rw [buildDict, initCore_fuel_irrelevant ((pd.take (pd.length / 2)).length + 1)
          pd.length _ _ (by omega) (by rw [List.length_take]; omega)]
        exact hl
    · have h3 : 2 < pd.length := by omega
      obtain ⟨l, hl, _⟩ := initCore_ok pd.length (pd.take (pd.length / 2))
        (td.take (pd.length / 2))
        (by rw [List.length_take]; omega)
        (strictKeys_take hsort _)
        (by rw [List.map_take, List.map_take, hkeys])
        (by apply List.ne_nil_of_length_pos; rw [List.length_take]; omega)
      obtain ⟨r, hr, _⟩ := initCore_ok pd.length (pd.drop (pd.length / 2 + 1))
        (td.drop (pd.length / 2 + 1))
        (by rw [List.length_drop]; omega)
        (strictKeys_drop hsort _)
        (by rw [List.map_drop, List.map_drop, hkeys])
        (by apply List.ne_nil_of_length_pos; rw [List.length_drop]; omega)
      refine ⟨a, b, l, r, ha, hb, ?_,
        fun hcon => (by omega : False).elim, fun _ => ?_,
        fun hcon => (by omega : False).elim, fun _ => ?_⟩
      · rw [buildDict, initCore]
        simp only [hspd, hstd, ha, hLp, hLt]
        rw [if_neg h1, if_neg h2, if_pos h3, hl, hr]
        rfl
      · rw [buildDict, initCore_fuel_irrelevant ((pd.take (pd.length / 2)).length + 1)
          pd.length _ _ (by omega) (by rw [List.length_take]; omega)]
        exact hl
      · rw [buildDict, initCore_fuel_irrelevant ((pd.drop (pd.length / 2 + 1)).length + 1)
          pd.length _ _ (by omega) (by rw [List.length_drop]; omega)]
        exact hr

theorem sortPairs_keys_eq (pd : List (Int × Int)) (td : List (Int × List Rat))
    (hpd : (pd.map Prod.fst).Nodup) (htd : (td.map Prod.fst).Nodup)
    (hkeys : (td.map Prod.fst).Perm (pd.map Prod.fst)) :
    (sortPairs td).map Prod.fst = (sortPairs pd).map Prod.fst := by
  have hsp := strictKeys_sortPairs hpd
  have hst := strictKeys_sortPairs htd
  have hs1 : List.Sorted (· ≤ ·) ((sortPairs td).map Prod.fst) :=
    hst.imp (fun h => le_of_lt h)
  have hs2 : List.Sorted (· ≤ ·) ((sortPairs pd).map Prod.fst) :=
    hsp.imp (fun h => le_of_lt h)
  exact List.eq_of_perm_of_sorted
    (((sortPairs_perm td).map Prod.fst).trans
      (hkeys.trans ((sortPairs_perm pd).map Prod.fst).symm))
    hs1 hs2

theorem buildDict_sortPairs (pd : List (Int × Int)) (td : List (Int × List Rat))
    (hpd : (pd.map Prod.fst).Nodup) (htd : (td.map Prod.fst).Nodup) :
    buildDict pd td = buildDict (sortPairs pd) (sortPairs td) := by
  rw [buildDict, buildDict, length_sortPairs]
  rw [initCore_sort_left _ _ _ hpd, initCore_sort_right _ _ _ htd]

/-- C2: construction follows the exact median-split rule: with the input ids
sorted ascending, `n` the number of ids and `mid = n / 2` (floor), the root id
is the sorted element at index `mid`, the left child is the tree built from
the index slice `[0, mid)` and the right child the tree built from
`[mid+1, n)`; for `n = 1` both children are empty; for `n = 2` the root is the
second (larger) of the two ids, the left child is a leaf holding the single
lower id, and the right child is empty. -/
theorem C2_median_split (pd : List (Int × Int)) (td : List (Int × List Rat))
    (hpd : (pd.map Prod.fst).Nodup) (htd : (td.map Prod.fst).Nodup)
    (hkeys : (td.map Prod.fst).Perm (pd.map Prod.fst)) (hne : pd ≠ []) :
    ∃ p ts l r,
      LogTree.init (some pd) (some td) =
        .ok (.node (((sortPairs pd).map Prod.fst).getD (pd.length / 2) 0) p ts l r) ∧
      (pd.length = 1 → l = .empty ∧ r = .empty) ∧
      (2 ≤ pd.length →
        buildDict ((sortPairs pd).take (pd.length / 2))
          ((sortPairs td).take (pd.length / 2)) = .ok l) ∧
      (pd.length ≤ 2 → r = .empty) ∧
      (3 ≤ pd.length →
        buildDict ((sortPairs pd).drop (pd.length / 2 + 1))
          ((sortPairs td).drop (pd.length / 2 + 1)) = .ok r) ∧
      (pd.length = 2 →
        ∃ lp lts, l = .node (((sortPairs pd).map Prod.fst).getD 0 0) lp lts .empty .empty) := by
  have hsp : ((sortPairs pd).map Prod.fst).Pairwise (· < ·) := strictKeys_sortPairs hpd
  have hkeyeq := sortPairs_keys_eq pd td hpd htd hkeys
  have hlen : (sortPairs pd).length = pd.length := length_sortPairs pd
  have hne2 : sortPairs pd ≠ [] := by
    apply List.ne_nil_of_length_pos
    rw [hlen]
    exact List.length_pos.mpr hne
  obtain ⟨a, b, l, r, ha, hb, hok, hc1, hc2, hc3, hc4⟩ :=
    buildDict_shape (sortPairs pd) (sortPairs td) hsp hkeyeq hne2
  rw [hlen] at ha hb hc1 hc2 hc3 hc4
  have hroot : ((sortPairs pd).map Prod.fst).getD (pd.length / 2) 0 = a.1 := by
    rw [List.getD_eq_getElem?_getD, List.getElem?_map, ha]
    rfl
  have hinit : LogTree.init (some pd) (some td) = .ok (.node a.1 a.2 b.2 l r) := by
    show buildDict pd td = _
    rw [buildDict_sortPairs pd td hpd htd]
    exact hok
  refine ⟨a.2, b.2, l, r, by rw [hroot]; exact hinit, hc1, hc2, hc3, hc4, ?_⟩
  intro h2
  have hmid1 : pd.length / 2 = 1 := by omega
  have hslice := hc2 (by omega)
  have hts : ((sortPairs pd).take (pd.length / 2)).length = 1 := by
    rw [List.length_take, hlen]
    omega
  obtain ⟨a2, b2, l2, r2, ha2, hb2, hok2, hc12, _, _, _⟩ :=
    buildDict_shape ((sortPairs pd).take (pd.length / 2))
      ((sortPairs td).take (pd.length / 2))
      (strictKeys_take hsp _)
      (by rw [List.map_take, List.map_take, hkeyeq])
      (by
        apply List.ne_nil_of_length_pos
        omega)
  obtain ⟨hl2, hr2⟩ := hc12 hts
  have hleq : l = .node a2.1 a2.2 b2.2 l2 r2 := by
    rw [hslice] at hok2
    exact Except.ok.inj hok2
  have hkey0 : ((sortPairs pd).map Prod.fst).getD 0 0 = a2.1 := by
    rw [hts, show (1 : Nat) / 2 = 0 from rfl, hmid1] at ha2
    rw [List.getElem?_take_of_lt (by omega : (0 : Nat) < 1)] at ha2
    rw [List.getD_eq_getElem?_getD, List.getElem?_map, ha2]
    rfl
  refine ⟨a2.2, b2.2, ?_⟩
  rw [hleq, hl2, hr2, hkey0]

/-- Witness for C2 at a concrete four-id input: the root is the third smallest
id (sorted index 4 / 2 = 2). -/
theorem C2_median_split_witness :
    (([(10, 1), (20, 1), (30, 1), (40, 1)] : List (Int × Int)).map Prod.fst).Nodup ∧
    (([(10, []), (20, []), (30, []), (40, [])] : List (Int × List Rat)).map Prod.fst).Nodup ∧
    ((([(10, []), (20, []), (30, []), (40, [])] : List (Int × List Rat)).map Prod.fst).Perm
      (([(10, 1), (20, 1), (30, 1), (40, 1)] : List (Int × Int)).map Prod.fst)) ∧
    (∃ p ts l r,
      LogTree.init (some [(10, 1), (20, 1), (30, 1), (40, 1)])
          (some [(10, []), (20, []), (30, []), (40, [])]) =
        .ok (.node (((sortPairs ([(10, 1), (20, 1), (30, 1), (40, 1)] :
            List (Int × Int))).map Prod.fst).getD
          (([(10, 1), (20, 1), (30, 1), (40, 1)] : List (Int × Int)).length / 2) 0) p ts l r) ∧
      (([(10, 1), (20, 1), (30, 1), (40, 1)] : List (Int × Int)).length = 1 →
        l = .empty ∧ r = .empty) ∧
      (2 ≤ ([(10, 1), (20, 1), (30, 1), (40, 1)] : List (Int × Int)).length →
        buildDict ((sortPairs ([(10, 1), (20, 1), (30, 1), (40, 1)] :
            List (Int × Int))).take
            (([(10, 1), (20, 1), (30, 1), (40, 1)] : List (Int × Int)).length / 2))
          ((sortPairs ([(10, []), (20, []), (30, []), (40, [])] :
            List (Int × List Rat))).take
            (([(10, 1), (20, 1), (30, 1), (40, 1)] : List (Int × Int)).length / 2)) = .ok l) ∧
      (([(10, 1), (20, 1), (30, 1), (40, 1)] : List (Int × Int)).length ≤ 2 → r = .empty) ∧
      (3 ≤ ([(10, 1), (20, 1), (30, 1), (40, 1)] : List (Int × Int)).length →
        buildDict ((sortPairs ([(10, 1), (20, 1), (30, 1), (40, 1)] :
            List (Int × Int))).drop
            (([(10, 1), (20, 1), (30, 1), (40, 1)] : List (Int × Int)).length / 2 + 1))
          ((sortPairs ([(10, []), (20, []), (30, []), (40, [])] :
            List (Int × List Rat))).drop
            (([(10, 1), (20, 1), (30, 1), (40, 1)] : List (Int × Int)).length / 2 + 1)) =
          .ok r) ∧
      (([(10, 1), (20, 1), (30, 1), (40, 1)] : List (Int × Int)).length = 2 →
        ∃ lp lts, l = .node (((sortPairs ([(10, 1), (20, 1), (30, 1), (40, 1)] :
          List (Int × Int))).map Prod.fst).getD 0 0) lp lts .empty .empty)) :=
  ⟨by decide, by decide, by decide,
    C2_median_split [(10, 1), (20, 1), (30, 1), (40, 1)]
      [(10, []), (20, []), (30, []), (40, [])]
      (by decide) (by decide) (by decide) (by decide)⟩
